import Mathlib

/-!
Shallow embedding of `redox::Buffer` (src/unnamed/part_000), a growable
owned array parameterized by an element type, an allocator capability and
a growth-policy capability.

Modelling choices:
* storage is `Option (List (Option α))`: `none` is the null pointer,
  a slot `none` is uninitialized storage, a slot `some v` holds a live value;
* the allocator is an oracle `aF : Nat -> Option e`: `aF n = none` means
  `Allocator::allocate(n)` succeeds (returning `n` uninitialized slots),
  `aF n = some err` means it fails with error `err`;
* the growth policy is a function `pol : Nat -> Nat` (`GrowthPolicy fn`,
  `fn(_size)`);
* every operation returns the list of observable events it performs:
  allocator calls, element-destructor calls and growth-policy calls,
  so that claims about "no reallocation" or "exactly one policy call"
  are statable;
* a fallible operation returns `Except (e, state-at-throw) (state, events)`:
  the error payload carries the buffer state as it is at the moment the
  allocator exception propagates (mirroring which assignments the C++ code
  has executed before the `throw`);
* `td : Bool` is `std::is_trivially_destructible_v<ValueType>`, gating the
  `if constexpr` in `_destruct`.
-/

namespace redox

/-- Observable events of a Buffer operation: calls into the allocator
capability, element destructor invocations, and growth-policy invocations. -/
inductive Ev where
  | allocCall (n : Nat) : Ev
  | deallocCall (isNull : Bool) : Ev
  | destructCall : Ev
  | policyCall (arg : Nat) : Ev
deriving DecidableEq

/-- The state of a `redox::Buffer<ValueType>`: member fields `_data`,
`_reserved` (capacity) and `_size` of src/unnamed/part_000 lines 216-218.
`_data = none` is the null pointer; an allocated region is a list of
`_reserved` slots, each `none` (uninitialized) or `some v` (live value). -/
structure Buffer (α : Type) where
  _data : Option (List (Option α))
  _reserved : Nat
  _size : Nat
deriving DecidableEq

/-- The slots behind the data pointer (empty list when the pointer is null). -/
def storageOf {α : Type} (b : Buffer α) : List (Option α) :=
  b._data.getD []

/-- The values read by iterating the live range: `_data[i]` for `i` in
`[0, _size)`, exactly what `begin()`/`end()` traversal reads. -/
def elems {α : Type} (b : Buffer α) : List (Option α) :=
  (List.range b._size).map fun i => (storageOf b).getD i none

/-- The loop `for (elm = 0; elm < k; ++elm) dest[elm] = move(old[elm])` of
`Buffer::_realloc`: writes the first `k` slots of `old` into `dest`. -/
def copyLoop {α : Type} (old dest : List (Option α)) : Nat → List (Option α)
  | 0 => dest
  | k + 1 => (copyLoop old dest k).set k (old.getD k none)

/-- Events of `Buffer::_destruct`: one destructor call per element of the
live range `[0, _size)`, skipped when the type is trivially destructible
(`td = true`), mirroring the `if constexpr`. -/
def destructEvs {α : Type} (td : Bool) (b : Buffer α) : List Ev :=
  if td then [] else List.replicate b._size Ev.destructCall

/-- `Buffer::reserve` (lines 128-133) together with `Buffer::_realloc`
(lines 174-186): no-op unless `n > _reserved`; otherwise allocate `n` slots
(propagating an allocator failure before any state change), move the `_size`
live slots over, destruct and deallocate the old storage, and adopt the new
storage and capacity. -/
def reserveOp {α ε : Type} (aF : Nat → Option ε) (td : Bool) (n : Nat) (b : Buffer α) :
    Except (ε × Buffer α) (Buffer α × List Ev) :=
  if n > b._reserved then
    match aF n with
    | some e => Except.error (e, b)
    | none =>
      let dest := copyLoop (storageOf b) (List.replicate n none) b._size
      Except.ok ({ _data := some dest, _reserved := n, _size := b._size },
        Ev.allocCall n :: (destructEvs td b ++ [Ev.deallocCall b._data.isNone]))
  else Except.ok (b, [])

/-- `Buffer::_grow_if_needed` (lines 188-193): when `_size == _reserved`,
invoke the growth policy on the current size and reserve its result. -/
def growIfNeeded {α ε : Type} (pol : Nat → Nat) (aF : Nat → Option ε) (td : Bool)
    (b : Buffer α) : Except (ε × Buffer α) (Buffer α × List Ev) :=
  if b._size = b._reserved then
    match reserveOp aF td (pol b._size) b with
    | Except.error e => Except.error e
    | Except.ok (b', evs) => Except.ok (b', Ev.policyCall b._size :: evs)
  else Except.ok (b, [])

/-- `Buffer::_push_no_checks` (lines 202-205): placement-construct the value
into slot `_size`, then increment `_size`. -/
def pushNoChecks {α : Type} (x : α) (b : Buffer α) : Buffer α :=
  { b with _data := b._data.map fun st => st.set b._size (some x),
           _size := b._size + 1 }

/-- `Buffer::_emplace_no_checks` (lines 207-210): placement-construct
(from the forwarded args, here the constructed value `x`) into slot `_size`,
then increment `_size`. -/
def emplaceNoChecks {α : Type} (x : α) (b : Buffer α) : Buffer α :=
  { b with _data := b._data.map fun st => st.set b._size (some x),
           _size := b._size + 1 }

/-- `Buffer::push` (lines 86-94): grow if needed, then place the element. -/
def pushOp {α ε : Type} (pol : Nat → Nat) (aF : Nat → Option ε) (td : Bool)
    (x : α) (b : Buffer α) : Except (ε × Buffer α) (Buffer α × List Ev) :=
  match growIfNeeded pol aF td b with
  | Except.error e => Except.error e
  | Except.ok (b', evs) => Except.ok (pushNoChecks x b', evs)

/-- `Buffer::emplace` (lines 96-100): grow if needed, then construct in place. -/
def emplaceOp {α ε : Type} (pol : Nat → Nat) (aF : Nat → Option ε) (td : Bool)
    (x : α) (b : Buffer α) : Except (ε × Buffer α) (Buffer α × List Ev) :=
  match growIfNeeded pol aF td b with
  | Except.error e => Except.error e
  | Except.ok (b', evs) => Except.ok (emplaceNoChecks x b', evs)

/-- `Buffer::clear` (lines 102-105), in the source's statement order:
first `_size = 0`, then `_destruct()` (which iterates the now-current live
range). Returns the new state and the destructor calls performed. -/
def clearOp {α : Type} (td : Bool) (b : Buffer α) : Buffer α × List Ev :=
  let b1 : Buffer α := { b with _size := 0 }
  (b1, destructEvs td b1)

/-- Events of `Buffer::~Buffer` (lines 107-110): `_destruct()` then
`_dealloc()`, the latter calling `Allocator::deallocate(_data)`
unconditionally (the event records whether the pointer was null). -/
def dtorEvs {α : Type} (td : Bool) (b : Buffer α) : List Ev :=
  destructEvs td b ++ [Ev.deallocCall b._data.isNone]

/-- Whether an event releases actually-allocated storage.
Modelled from the spec: `allocation::DefaultAllocator` (core/allocation/
default_allocator.h, not under src/) — deallocating the null pointer
releases no storage ("destructing an already-moved-from (empty) buffer is
safe" / "a no-op on storage", spec sections 4.1 and 8). -/
def releasesStorage : Ev → Bool
  | Ev.deallocCall isNull => !isNull
  | _ => false

/-- `Buffer::Buffer(Buffer&&)` (lines 67-74): the new object takes the
source's fields; the source is reset to the empty state. -/
def moveCtor {α : Type} (b : Buffer α) : Buffer α × Buffer α :=
  (⟨b._data, b._reserved, b._size⟩, ⟨none, 0, 0⟩)

/-- `Buffer::operator=(Buffer&&)` (lines 76-84): the target's fields are
overwritten with the source's and the source is reset to the empty state;
the body performs no destructor call and no allocator call, so the event
list is empty. Returns (new target, new source, events). -/
def moveAssign {α : Type} (tgt b : Buffer α) : Buffer α × Buffer α × List Ev :=
  (⟨b._data, b._reserved, b._size⟩, ⟨none, 0, 0⟩, [])

/-- `Buffer::operator[]` (lines 112-126) in the debug build configuration
(`RDX_DEBUG` defined): `index >= _size` throws `Exception("index out of
bounds")`; otherwise return the slot `_data[index]`. The operation reads
and never mutates the buffer. -/
def opIndexDebug {α : Type} (b : Buffer α) (index : Nat) : Except String (Option α) :=
  if index ≥ b._size then Except.error "index out of bounds"
  else Except.ok ((storageOf b).getD index none)

/-- The loop `for (elm = lo; elm < lo + k; ++elm) new (_data + elm) ValueType()`
of `Buffer::resize`, default-constructing `k` slots starting at `lo`. -/
def fillLoop {α : Type} (dflt : α) (st : List (Option α)) (lo : Nat) : Nat → List (Option α)
  | 0 => st
  | k + 1 => (fillLoop dflt st lo k).set (lo + k) (some dflt)

/-- `Buffer::resize` (lines 135-143): reserve `n`, default-construct the
slots `[_size, n)` (`dflt` is the default-constructed value), set `_size = n`. -/
def resizeOp {α ε : Type} (aF : Nat → Option ε) (td : Bool) (dflt : α) (n : Nat)
    (b : Buffer α) : Except (ε × Buffer α) (Buffer α × List Ev) :=
  match reserveOp aF td n b with
  | Except.error e => Except.error e
  | Except.ok (b1, evs) =>
    Except.ok ({ b1 with
      _data := b1._data.map fun st => fillLoop dflt st b1._size (n - b1._size),
      _size := n }, evs)

/-- The element-copy of the range constructor, writing element `k` of the
source into slot `k` of the destination for `k` below the bound (exact for
one-byte elements, where `memcpy(_data, start, length)` copies exactly the
`length` elements; the general byte-level behaviour is modelled separately
by `rangeCtorBytes`). -/
def memcpyElems {α : Type} (src : List α) (dest : List (Option α)) : Nat → List (Option α)
  | 0 => dest
  | k + 1 => (memcpyElems src dest k).set k (src.get? k)

/-- `Buffer::Buffer(const ValueType* start, size_type length)` (lines 51-55)
with `length = src.length`, for one-byte elements: delegate to the default
constructor, `reserve(length)`, copy the source range, set `_size = length`. -/
def rangeCtorOp {α ε : Type} (aF : Nat → Option ε) (td : Bool) (src : List α) :
    Except (ε × Buffer α) (Buffer α × List Ev) :=
  match reserveOp aF td src.length (⟨none, 0, 0⟩ : Buffer α) with
  | Except.error e => Except.error e
  | Except.ok (b1, evs) =>
    Except.ok ({ b1 with
      _data := b1._data.map fun st => memcpyElems src st src.length,
      _size := src.length }, evs)

/-- `Buffer::Buffer(std::initializer_list<ValueType>)` (lines 57-65):
delegate to the default constructor, `reserve(values.size())`, then
`_push_no_checks` each value by copy. -/
def initListCtorOp {α ε : Type} (aF : Nat → Option ε) (td : Bool) (values : List α) :
    Except (ε × Buffer α) (Buffer α × List Ev) :=
  match reserveOp aF td values.length (⟨none, 0, 0⟩ : Buffer α) with
  | Except.error e => Except.error e
  | Except.ok (b1, evs) =>
    Except.ok (values.foldl (fun bb v => pushNoChecks v bb) b1, evs)

/-- An insertion operation of the public interface: `push` (by copy or move,
both place the same value) or `emplace` (constructing the value in place). -/
inductive Ins (α : Type) where
  | pushIns (x : α) : Ins α
  | emplaceIns (x : α) : Ins α
deriving DecidableEq

/-- The value inserted by an insertion operation. -/
def Ins.val {α : Type} : Ins α → α
  | Ins.pushIns x => x
  | Ins.emplaceIns x => x

/-- Run one insertion operation. -/
def runIns {α ε : Type} (pol : Nat → Nat) (aF : Nat → Option ε) (td : Bool) :
    Ins α → Buffer α → Except (ε × Buffer α) (Buffer α × List Ev)
  | Ins.pushIns x, b => pushOp pol aF td x b
  | Ins.emplaceIns x, b => emplaceOp pol aF td x b

/-- Run a sequence of insertion operations in order. -/
def runSeq {α ε : Type} (pol : Nat → Nat) (aF : Nat → Option ε) (td : Bool) :
    List (Ins α) → Buffer α → Except (ε × Buffer α) (Buffer α)
  | [], b => Except.ok b
  | op :: ops, b =>
    match runIns pol aF td op b with
    | Except.error e => Except.error e
    | Except.ok (b', _) => runSeq pol aF td ops b'

/-- Byte-level `memcpy(dest, src, k)`: copies `k` bytes of `src` into the
first `k` byte slots of `dest`. -/
def memcpyBytesLoop (src : List Nat) (dest : List (Option Nat)) : Nat → List (Option Nat)
  | 0 => dest
  | k + 1 => (memcpyBytesLoop src dest k).set k (some (src.getD k 0))

/-- Byte-level model of the storage produced by the range constructor
`Buffer(const ValueType* start, size_type length)` for an element type of
byte size `s`: `reserve(length)` backs `length` element slots, i.e.
`length * s` uninitialized bytes, and `memcpy(_data, start, length)` then
copies `length` bytes (as written in the source — not `length * s`).
`src` is the byte image of the source range. -/
def rangeCtorBytes (s : Nat) (src : List Nat) (length : Nat) : List (Option Nat) :=
  memcpyBytesLoop src (List.replicate (length * s) none) length

/-- Structural well-formedness of a buffer state: the size never exceeds the
capacity, the data pointer is null exactly when the capacity is zero, and the
allocated region backs exactly `_reserved` slots. -/
def WF {α : Type} (b : Buffer α) : Prop :=
  b._size ≤ b._reserved ∧ (b._data = none ↔ b._reserved = 0) ∧
    (storageOf b).length = b._reserved

/-- Buffer states reachable through the public operations: the four
constructors, `push`, `emplace`, `reserve`, `resize`, `clear`, and both
sides of move construction and move assignment. Insertions carry the
growth-policy capability contract of spec section 6
(`next_capacity(s) > s`). An operation whose allocation fails produces no
new state (the exception propagates and the pre-call state persists). -/
inductive Reachable {α : Type} : Buffer α → Prop where
  | ctor_default : Reachable (⟨none, 0, 0⟩ : Buffer α)
  | ctor_sized (aF : Nat → Option Unit) (td : Bool) (dflt : α) (n : Nat)
      (b' : Buffer α) (evs : List Ev) :
      resizeOp aF td dflt n (⟨none, 0, 0⟩ : Buffer α) = Except.ok (b', evs) →
      Reachable b'
  | ctor_range (aF : Nat → Option Unit) (td : Bool) (src : List α)
      (b' : Buffer α) (evs : List Ev) :
      rangeCtorOp aF td src = Except.ok (b', evs) → Reachable b'
  | ctor_init_list (aF : Nat → Option Unit) (td : Bool) (values : List α)
      (b' : Buffer α) (evs : List Ev) :
      initListCtorOp aF td values = Except.ok (b', evs) → Reachable b'
  | step_push (b : Buffer α) (pol : Nat → Nat) (aF : Nat → Option Unit)
      (td : Bool) (x : α) (b' : Buffer α) (evs : List Ev) :
      Reachable b → (∀ s, s < pol s) →
      pushOp pol aF td x b = Except.ok (b', evs) → Reachable b'
  | step_emplace (b : Buffer α) (pol : Nat → Nat) (aF : Nat → Option Unit)
      (td : Bool) (x : α) (b' : Buffer α) (evs : List Ev) :
      Reachable b → (∀ s, s < pol s) →
      emplaceOp pol aF td x b = Except.ok (b', evs) → Reachable b'
  | step_reserve (b : Buffer α) (aF : Nat → Option Unit) (td : Bool) (n : Nat)
      (b' : Buffer α) (evs : List Ev) :
      Reachable b → reserveOp aF td n b = Except.ok (b', evs) → Reachable b'
  | step_resize (b : Buffer α) (aF : Nat → Option Unit) (td : Bool) (dflt : α)
      (n : Nat) (b' : Buffer α) (evs : List Ev) :
      Reachable b → resizeOp aF td dflt n b = Except.ok (b', evs) → Reachable b'
  | step_clear (b : Buffer α) (td : Bool) :
      Reachable b → Reachable (clearOp td b).1
  | step_move_ctor_dst (b : Buffer α) : Reachable b → Reachable (moveCtor b).1
  | step_move_ctor_src (b : Buffer α) : Reachable b → Reachable (moveCtor b).2
  | step_move_assign_dst (tgt b : Buffer α) :
      Reachable tgt → Reachable b → Reachable (moveAssign tgt b).1
  | step_move_assign_src (tgt b : Buffer α) :
      Reachable tgt → Reachable b → Reachable (moveAssign tgt b).2.1

/-! Helper lemmas about list primitives used by the loops above. -/

lemma getD_set_lt {α : Type} (l : List α) (i : Nat) (x d : α) (h : i < l.length) :
    (l.set i x).getD i d = x := by
  simp [List.getD_eq_getElem?_getD, List.getElem?_set_self', List.getElem?_eq_getElem, h]

lemma getD_set_ne {α : Type} (l : List α) (i j : Nat) (x d : α) (h : i ≠ j) :
    (l.set i x).getD j d = l.getD j d := by
  simp [List.getD_eq_getElem?_getD, List.getElem?_set_ne h]

lemma getD_range_map {β : Type} (f : Nat → β) (n i : Nat) (d : β) (h : i < n) :
    ((List.range n).map f).getD i d = f i := by
  simp [List.getD_eq_getElem?_getD, List.getElem?_map, List.getElem?_range h]

lemma copyLoop_length {α : Type} (old dest : List (Option α)) :
    ∀ k, (copyLoop old dest k).length = dest.length
  | 0 => rfl
  | k + 1 => by simp [copyLoop, List.length_set, copyLoop_length old dest k]

lemma copyLoop_getD {α : Type} (old dest : List (Option α)) :
    ∀ k i, (copyLoop old dest k).getD i none =
      if i < k ∧ i < dest.length then old.getD i none else dest.getD i none
  | 0, i => by simp [copyLoop]
  | k + 1, i => by
    show ((copyLoop old dest k).set k (old.getD k none)).getD i none =
      if i < k + 1 ∧ i < dest.length then old.getD i none else dest.getD i none
    by_cases hik : i = k
    · by_cases hlen : k < dest.length
      · rw [hik, getD_set_lt _ _ _ _ (by rw [copyLoop_length]; exact hlen),
          if_pos (⟨Nat.lt_succ_self k, hlen⟩ : k < k + 1 ∧ k < dest.length)]
      · rw [List.set_eq_of_length_le (by rw [copyLoop_length]; omega),
          copyLoop_getD old dest k i]
        have h1 : ¬ (i < k ∧ i < dest.length) := by omega
        have h2 : ¬ (i < k + 1 ∧ i < dest.length) := by omega
        rw [if_neg h1, if_neg h2]
    · rw [getD_set_ne _ _ _ _ _ (Ne.symm hik), copyLoop_getD old dest k i]
      have hiff : (i < k ∧ i < dest.length) ↔ (i < k + 1 ∧ i < dest.length) := by
        constructor <;> intro hh <;> exact ⟨by omega, hh.2⟩
      rw [if_congr hiff rfl rfl]

lemma fillLoop_length {α : Type} (dflt : α) (st : List (Option α)) (lo : Nat) :
    ∀ k, (fillLoop dflt st lo k).length = st.length
  | 0 => rfl
  | k + 1 => by simp [fillLoop, List.length_set, fillLoop_length dflt st lo k]

lemma memcpyElems_length {α : Type} (src : List α) (dest : List (Option α)) :
    ∀ k, (memcpyElems src dest k).length = dest.length
  | 0 => rfl
  | k + 1 => by simp [memcpyElems, List.length_set, memcpyElems_length src dest k]

/-! Basic facts about buffer states. -/

lemma WF_empty {α : Type} : WF (⟨none, 0, 0⟩ : Buffer α) :=
  ⟨Nat.le_refl 0, by simp, rfl⟩

lemma elems_empty {α : Type} : elems (⟨none, 0, 0⟩ : Buffer α) = [] := by
  simp [elems]

lemma elems_getD {α : Type} (b : Buffer α) (i : Nat) (h : i < b._size) :
    (elems b).getD i none = (storageOf b).getD i none :=
  getD_range_map _ _ _ _ h

/-- C1: the claim says `clear()` destructs every live element; the code of
`Buffer::clear` sets `_size = 0` BEFORE calling `_destruct()`, and
`_destruct` iterates the range `[begin, end) = [0, _size)`, which is then
empty — so no element destructor runs at all. Evaluated at a buffer holding
one live element of a non-trivially-destructible type: `clear` produces the
empty event list, while `_destruct` on the pre-call state (what the spec
intends) would have produced one destructor call. Size does become 0 and
capacity stays 1, as claimed. -/
theorem clear_destructs_nothing :
    clearOp false (⟨some [some 42], 1, 1⟩ : Buffer Nat) =
      ((⟨some [some 42], 1, 0⟩ : Buffer Nat), ([] : List Ev)) ∧
    destructEvs false (⟨some [some 42], 1, 1⟩ : Buffer Nat) = [Ev.destructCall] :=
  ⟨rfl, rfl⟩

/-- C2: the claim says the range constructor copies `length` elements
byte-for-byte for every trivially-copyable element type; the code calls
`memcpy(_data, start, length)`, which copies `length` BYTES, not
`length * sizeof(ValueType)`. For an element type of byte size 2, source
bytes `[7, 9]` (one element) and `length = 1`, only byte 0 is copied: byte 1
of element 0 stays uninitialized (`none`) although the source byte there
is 9. For byte-sized elements (`s = 1`) the copy is complete, confirming the
byte-payload reading of the spec. -/
theorem range_ctor_memcpy_truncates :
    rangeCtorBytes 2 [7, 9] 1 = [some 7, none] ∧
    (rangeCtorBytes 2 [7, 9] 1).getD 1 none = none ∧
    [7, 9].getD 1 0 = 9 ∧
    rangeCtorBytes 1 [7, 9] 2 = [some 7, some 9] := by
  decide

/-- C4: after move construction or move assignment the destination holds the
source's prior data pointer, capacity, size and element contents, the source
is reset to the empty state (`size = capacity = 0`, storage null), and
destructing the moved-from source performs no element destructor call and
releases no storage (the destructor's only allocator interaction is
`deallocate` on the null pointer). -/
theorem move_transfer {α : Type} (b tgt : Buffer α) (td : Bool) :
    (moveCtor b).1 = b ∧
    (moveCtor b).2 = (⟨none, 0, 0⟩ : Buffer α) ∧
    (moveAssign tgt b).1 = b ∧
    (moveAssign tgt b).2.1 = (⟨none, 0, 0⟩ : Buffer α) ∧
    elems (moveCtor b).1 = elems b ∧
    (moveCtor b).1._size = b._size ∧
    (moveCtor b).1._reserved = b._reserved ∧
    dtorEvs td (moveCtor b).2 = [Ev.deallocCall true] ∧
    List.count Ev.destructCall (dtorEvs td (moveCtor b).2) = 0 ∧
    (dtorEvs td (moveCtor b).2).all (fun ev => !releasesStorage ev) = true := by
  refine ⟨rfl, rfl, rfl, rfl, rfl, rfl, rfl, ?_, ?_, ?_⟩ <;>
    cases td <;> rfl

/-- C10: `Buffer::operator=(Buffer&&)` overwrites the target's data pointer,
size and capacity with the source's values; its body performs no element
destructor call and no allocator `deallocate` call, so the target's prior
storage is abandoned rather than released: the operation's event list is
empty. -/
theorem move_assign_abandons_target {α : Type} (tgt b : Buffer α) :
    (moveAssign tgt b).1 = (⟨b._data, b._reserved, b._size⟩ : Buffer α) ∧
    (moveAssign tgt b).2.2 = [] ∧
    List.count Ev.destructCall (moveAssign tgt b).2.2 = 0 ∧
    (moveAssign tgt b).2.2.all (fun ev => !releasesStorage ev) = true :=
  ⟨rfl, rfl, rfl, rfl⟩

/-! Characterization of `reserveOp`. -/

lemma reserveOp_of_le {α ε : Type} {aF : Nat → Option ε} {td : Bool} {n : Nat}
    {b : Buffer α} (h : ¬ b._reserved < n) :
    reserveOp aF td n b = Except.ok (b, []) := by
  simp [reserveOp, gt_iff_lt, h]

lemma reserveOp_of_grow {α ε : Type} {aF : Nat → Option ε} {td : Bool} {n : Nat}
    {b : Buffer α} (hn : b._reserved < n) (ha : aF n = none) :
    reserveOp aF td n b = Except.ok
      ((⟨some (copyLoop (storageOf b) (List.replicate n none) b._size), n, b._size⟩ : Buffer α),
       Ev.allocCall n :: (destructEvs td b ++ [Ev.deallocCall b._data.isNone])) := by
  simp [reserveOp, gt_iff_lt, hn, ha]

lemma reserveOp_ok_inv {α ε : Type} {aF : Nat → Option ε} {td : Bool} {n : Nat}
    {b b' : Buffer α} {evs : List Ev}
    (h : reserveOp aF td n b = Except.ok (b', evs)) :
    (¬ b._reserved < n ∧ b' = b ∧ evs = []) ∨
    (b._reserved < n ∧ aF n = none ∧
      b' = (⟨some (copyLoop (storageOf b) (List.replicate n none) b._size), n, b._size⟩ : Buffer α) ∧
      evs = Ev.allocCall n :: (destructEvs td b ++ [Ev.deallocCall b._data.isNone])) := by
  by_cases hn : b._reserved < n
  · cases ha : aF n with
    | some e => simp [reserveOp, gt_iff_lt, hn, ha] at h
    | none =>
      rw [reserveOp_of_grow hn ha] at h
      simp only [Except.ok.injEq, Prod.mk.injEq] at h
      exact Or.inr ⟨hn, rfl, h.1.symm, h.2.symm⟩
  · rw [reserveOp_of_le hn] at h
    simp only [Except.ok.injEq, Prod.mk.injEq] at h
    exact Or.inl ⟨hn, h.1.symm, h.2.symm⟩

lemma WF_grown {α : Type} {n : Nat} {b : Buffer α} (hWF : WF b) (hn : b._reserved < n) :
    WF (⟨some (copyLoop (storageOf b) (List.replicate n none) b._size), n, b._size⟩ : Buffer α) := by
  refine ⟨le_of_lt (lt_of_le_of_lt hWF.1 hn), ?_, ?_⟩
  · simp only [Buffer._data, Buffer._reserved]
    constructor
    · intro hc; cases hc
    · intro hc; omega
  · show (copyLoop (storageOf b) (List.replicate n none) b._size).length = n
    rw [copyLoop_length, List.length_replicate]

lemma elems_grown {α : Type} {n : Nat} {b : Buffer α} (hWF : WF b) (hn : b._reserved < n) :
    elems (⟨some (copyLoop (storageOf b) (List.replicate n none) b._size), n, b._size⟩ : Buffer α)
      = elems b := by
  unfold elems
  apply List.map_congr_left
  intro i hi
  rw [List.mem_range] at hi
  show (copyLoop (storageOf b) (List.replicate n none) b._size).getD i none
    = (storageOf b).getD i none
  rw [copyLoop_getD]
  have h2 : i < (List.replicate n (none : Option α)).length := by
    rw [List.length_replicate]
    exact lt_of_lt_of_le hi (le_of_lt (lt_of_le_of_lt hWF.1 hn))
  rw [if_pos ⟨hi, h2⟩]

lemma reserveOp_ok_WF {α ε : Type} {aF : Nat → Option ε} {td : Bool} {n : Nat}
    {b b' : Buffer α} {evs : List Ev} (hWF : WF b)
    (h : reserveOp aF td n b = Except.ok (b', evs)) :
    WF b' ∧ n ≤ b'._reserved ∧ b'._size = b._size ∧ b._reserved ≤ b'._reserved ∧
      elems b' = elems b := by
  rcases reserveOp_ok_inv h with ⟨hn, rfl, rfl⟩ | ⟨hn, ha, rfl, rfl⟩
  · exact ⟨hWF, Nat.le_of_not_lt hn, rfl, Nat.le_refl _, rfl⟩
  · exact ⟨WF_grown hWF hn, Nat.le_refl n, rfl, le_of_lt hn, elems_grown hWF hn⟩

/-- C5: a completed `reserve(n)` never decreases the capacity, never changes
the size, and leaves the values and order of the live range `[0, size)`
unchanged; when `n ≤ capacity` it is a complete no-op (same state, and not
even an allocator event occurs). -/
theorem reserve_frame {α ε : Type} (aF : Nat → Option ε) (td : Bool) (n : Nat)
    (b b' : Buffer α) (evs : List Ev) (hWF : WF b)
    (h : reserveOp aF td n b = Except.ok (b', evs)) :
    b._reserved ≤ b'._reserved ∧ b'._size = b._size ∧ elems b' = elems b ∧
      (n ≤ b._reserved → b' = b ∧ evs = []) := by
  obtain ⟨_, _, hsz, hcap, hel⟩ := reserveOp_ok_WF hWF h
  refine ⟨hcap, hsz, hel, fun hle => ?_⟩
  rcases reserveOp_ok_inv h with ⟨_, rfl, rfl⟩ | ⟨hn, _, _, _⟩
  · exact ⟨rfl, rfl⟩
  · omega

/-- C5 witness: growing a one-element buffer of capacity 1 to capacity 2. -/
theorem reserve_frame_w :
    (⟨some [some 3], 1, 1⟩ : Buffer Nat)._reserved ≤
      (⟨some [some 3, none], 2, 1⟩ : Buffer Nat)._reserved ∧
    (⟨some [some 3, none], 2, 1⟩ : Buffer Nat)._size =
      (⟨some [some 3], 1, 1⟩ : Buffer Nat)._size ∧
    elems (⟨some [some 3, none], 2, 1⟩ : Buffer Nat) =
      elems (⟨some [some 3], 1, 1⟩ : Buffer Nat) ∧
    (2 ≤ (⟨some [some 3], 1, 1⟩ : Buffer Nat)._reserved →
      (⟨some [some 3, none], 2, 1⟩ : Buffer Nat) = (⟨some [some 3], 1, 1⟩ : Buffer Nat) ∧
      [Ev.allocCall 2, Ev.destructCall, Ev.deallocCall false] = ([] : List Ev)) :=
  reserve_frame (fun _ => (none : Option Unit)) false 2
    (⟨some [some 3], 1, 1⟩ : Buffer Nat) (⟨some [some 3, none], 2, 1⟩ : Buffer Nat)
    [Ev.allocCall 2, Ev.destructCall, Ev.deallocCall false]
    ⟨Nat.le_refl 1, by simp, rfl⟩ rfl

/-- C7: if the allocator's `allocate` fails during `reserve(n)`, the failure
propagates unchanged (the propagated error is exactly the allocator's) and
the buffer observed at the throw point is exactly the pre-call state — in
`Buffer::_realloc` the `allocate` call precedes every mutation, and in
`reserve` the `_data`/`_reserved` assignments happen only after `_realloc`
returns. -/
theorem reserve_alloc_failure_atomic {α ε : Type} (aF : Nat → Option ε) (td : Bool)
    (n : Nat) (b s : Buffer α) (e : ε)
    (h : reserveOp aF td n b = Except.error (e, s)) :
    s = b ∧ aF n = some e ∧ b._reserved < n := by
  by_cases hn : b._reserved < n
  · cases ha : aF n with
    | some e' =>
      have : reserveOp aF td n b = Except.error (e', b) := by
        simp [reserveOp, gt_iff_lt, hn, ha]
      rw [this] at h
      simp only [Except.error.injEq, Prod.mk.injEq] at h
      exact ⟨h.2.symm, by rw [h.1], hn⟩
    | none => rw [reserveOp_of_grow hn ha] at h; cases h
  · rw [reserveOp_of_le hn] at h; cases h

/-- C7 witness: an always-failing allocator on a reserve that must grow. -/
theorem reserve_alloc_failure_atomic_w :
    (⟨none, 0, 0⟩ : Buffer Nat) = (⟨none, 0, 0⟩ : Buffer Nat) ∧
    (fun _ : Nat => some 7) 1 = some 7 ∧
    (⟨none, 0, 0⟩ : Buffer Nat)._reserved < 1 :=
  reserve_alloc_failure_atomic (fun _ : Nat => some 7) false 1
    (⟨none, 0, 0⟩ : Buffer Nat) (⟨none, 0, 0⟩ : Buffer Nat) 7 rfl

/-- C8: in the debug build configuration, `operator[]` with `index ≥ size`
(in particular `index == size`) raises the out-of-bounds condition as a
catchable error, and with `index < size` it does not raise and yields the
live element at that position of the iteration range `[0, size)`; the
operation is a pure read, so the buffer state is unchanged in both cases. -/
theorem opIndex_debug_bounds {α : Type} (b : Buffer α) (i : Nat) :
    (b._size ≤ i → opIndexDebug b i = Except.error "index out of bounds") ∧
    (i < b._size → opIndexDebug b i = Except.ok ((elems b).getD i none)) := by
  constructor
  · intro h
    simp [opIndexDebug, ge_iff_le, h]
  · intro h
    rw [opIndexDebug, if_neg (by omega), elems_getD b i h]

/-- C8 witness: a one-element buffer; index 1 (`== size`) raises, index 0
yields the element. -/
theorem opIndex_debug_bounds_w :
    opIndexDebug (⟨some [some 5], 1, 1⟩ : Buffer Nat) 1 =
      Except.error "index out of bounds" ∧
    opIndexDebug (⟨some [some 5], 1, 1⟩ : Buffer Nat) 0 =
      Except.ok ((elems (⟨some [some 5], 1, 1⟩ : Buffer Nat)).getD 0 none) :=
  ⟨(opIndex_debug_bounds (⟨some [some 5], 1, 1⟩ : Buffer Nat) 1).1 (by decide),
   (opIndex_debug_bounds (⟨some [some 5], 1, 1⟩ : Buffer Nat) 0).2 (by decide)⟩

/-! Characterization of `growIfNeeded`, `pushNoChecks` and the insertion
operations. -/

lemma growIfNeeded_of_ne {α ε : Type} {pol : Nat → Nat} {aF : Nat → Option ε}
    {td : Bool} {b : Buffer α} (h : b._size ≠ b._reserved) :
    growIfNeeded pol aF td b = Except.ok (b, []) := by
  simp [growIfNeeded, h]

lemma growIfNeeded_ok_inv {α ε : Type} {pol : Nat → Nat} {aF : Nat → Option ε}
    {td : Bool} {b b' : Buffer α} {evs : List Ev}
    (h : growIfNeeded pol aF td b = Except.ok (b', evs)) :
    (b._size ≠ b._reserved ∧ b' = b ∧ evs = []) ∨
    (b._size = b._reserved ∧ ∃ evs1,
      reserveOp aF td (pol b._size) b = Except.ok (b', evs1) ∧
      evs = Ev.policyCall b._size :: evs1) := by
  by_cases hs : b._size = b._reserved
  · right
    unfold growIfNeeded at h
    rw [if_pos hs] at h
    cases hr : reserveOp aF td (pol b._size) b with
    | error e => rw [hr] at h; cases h
    | ok p =>
      obtain ⟨b1, evs1⟩ := p
      rw [hr] at h
      simp only [Except.ok.injEq, Prod.mk.injEq] at h
      exact ⟨hs, evs1, by rw [← h.1], h.2.symm⟩
  · left
    rw [growIfNeeded_of_ne hs] at h
    simp only [Except.ok.injEq, Prod.mk.injEq] at h
    exact ⟨hs, h.1.symm, h.2.symm⟩

lemma pushNoChecks_size {α : Type} (x : α) (b : Buffer α) :
    (pushNoChecks x b)._size = b._size + 1 := rfl

lemma pushNoChecks_reserved {α : Type} (x : α) (b : Buffer α) :
    (pushNoChecks x b)._reserved = b._reserved := rfl

lemma WF_data_some {α : Type} {b : Buffer α} (hWF : WF b) (h : 0 < b._reserved) :
    ∃ st, b._data = some st ∧ st.length = b._reserved := by
  cases hd : b._data with
  | none => exact absurd (hWF.2.1.1 hd) (by omega)
  | some st =>
    refine ⟨st, rfl, ?_⟩
    have := hWF.2.2
    rw [storageOf, hd] at this
    exact this

lemma storageOf_pushNoChecks {α : Type} (x : α) {b : Buffer α} {st : List (Option α)}
    (hst : b._data = some st) :
    storageOf (pushNoChecks x b) = st.set b._size (some x) := by
  show ((b._data.map fun l => l.set b._size (some x)).getD []) = st.set b._size (some x)
  rw [hst]
  rfl

lemma WF_pushNoChecks {α : Type} (x : α) {b : Buffer α} (hWF : WF b)
    (hlt : b._size < b._reserved) : WF (pushNoChecks x b) := by
  obtain ⟨st, hst, hlen⟩ := WF_data_some hWF (by omega)
  refine ⟨Nat.succ_le_of_lt hlt, ?_, ?_⟩
  · show (b._data.map fun l => l.set b._size (some x)) = none ↔ b._reserved = 0
    rw [hst]
    constructor
    · intro hc; exact Option.noConfusion hc
    · intro hc; exact absurd hc (by omega)
  · show (storageOf (pushNoChecks x b)).length = b._reserved
    rw [storageOf_pushNoChecks x hst, List.length_set, hlen]

lemma elems_pushNoChecks {α : Type} (x : α) {b : Buffer α} (hWF : WF b)
    (hlt : b._size < b._reserved) :
    elems (pushNoChecks x b) = elems b ++ [some x] := by
  obtain ⟨st, hst, hlen⟩ := WF_data_some hWF (by omega)
  show (List.range (b._size + 1)).map (fun i => (storageOf (pushNoChecks x b)).getD i none)
      = elems b ++ [some x]
  rw [storageOf_pushNoChecks x hst, List.range_succ, List.map_append, List.map_singleton]
  congr 1
  · apply List.map_congr_left
    intro i hi
    rw [List.mem_range] at hi
    rw [getD_set_ne st b._size i (some x) none (by omega), storageOf, hst]
    rfl
  · rw [getD_set_lt st b._size (some x) none (by rw [hlen]; exact hlt)]

lemma growIfNeeded_ok_facts {α ε : Type} {pol : Nat → Nat} {aF : Nat → Option ε}
    {td : Bool} {b b1 : Buffer α} {evs : List Ev} (hWF : WF b)
    (hpol : b._size = b._reserved → b._size < pol b._size)
    (h : growIfNeeded pol aF td b = Except.ok (b1, evs)) :
    WF b1 ∧ b1._size = b._size ∧ b1._size < b1._reserved ∧
      elems b1 = elems b ∧ b._reserved ≤ b1._reserved := by
  rcases growIfNeeded_ok_inv h with ⟨hne, rfl, rfl⟩ | ⟨hs, evs1, hr, rfl⟩
  · exact ⟨hWF, rfl, lt_of_le_of_ne hWF.1 hne, rfl, Nat.le_refl _⟩
  · rcases reserveOp_ok_inv hr with ⟨hn, rfl, rfl⟩ | ⟨hn, ha, rfl, rfl⟩
    · exact absurd (hpol hs) (by omega)
    · refine ⟨WF_grown hWF hn, rfl, ?_, elems_grown hWF hn, le_of_lt hn⟩
      show b._size < pol b._size
      exact hpol hs

lemma pushOp_ok_inv {α ε : Type} {pol : Nat → Nat} {aF : Nat → Option ε}
    {td : Bool} {x : α} {b b' : Buffer α} {evs : List Ev}
    (h : pushOp pol aF td x b = Except.ok (b', evs)) :
    ∃ b1, growIfNeeded pol aF td b = Except.ok (b1, evs) ∧ b' = pushNoChecks x b1 := by
  unfold pushOp at h
  cases hg : growIfNeeded pol aF td b with
  | error e => rw [hg] at h; cases h
  | ok p =>
    obtain ⟨b1, evs1⟩ := p
    rw [hg] at h
    simp only [Except.ok.injEq, Prod.mk.injEq] at h
    exact ⟨b1, by rw [← h.2], h.1.symm⟩

lemma pushOp_spec {α ε : Type} {pol : Nat → Nat} {aF : Nat → Option ε}
    {td : Bool} {x : α} {b b' : Buffer α} {evs : List Ev} (hWF : WF b)
    (hpol : b._size = b._reserved → b._size < pol b._size)
    (h : pushOp pol aF td x b = Except.ok (b', evs)) :
    WF b' ∧ b'._size = b._size + 1 ∧ elems b' = elems b ++ [some x] ∧
      b._reserved ≤ b'._reserved := by
  obtain ⟨b1, hg, rfl⟩ := pushOp_ok_inv h
  obtain ⟨hWF1, hsz, hlt, hel, hcap⟩ := growIfNeeded_ok_facts hWF hpol hg
  refine ⟨WF_pushNoChecks x hWF1 hlt, ?_, ?_, ?_⟩
  · rw [pushNoChecks_size, hsz]
  · rw [elems_pushNoChecks x hWF1 hlt, hel]
  · rw [pushNoChecks_reserved]; exact hcap

lemma emplaceOp_eq_pushOp {α ε : Type} (pol : Nat → Nat) (aF : Nat → Option ε)
    (td : Bool) (x : α) (b : Buffer α) :
    emplaceOp pol aF td x b = pushOp pol aF td x b := by
  unfold emplaceOp pushOp
  cases growIfNeeded pol aF td b <;> rfl

lemma reserveOp_total {α ε : Type} {aF : Nat → Option ε} {td : Bool} {n : Nat}
    {b : Buffer α} (ha : aF n = none) :
    ∃ b' evs, reserveOp aF td n b = Except.ok (b', evs) := by
  by_cases hn : b._reserved < n
  · exact ⟨_, _, reserveOp_of_grow hn ha⟩
  · exact ⟨_, _, reserveOp_of_le hn⟩

lemma pushOp_total {α ε : Type} {pol : Nat → Nat} {aF : Nat → Option ε}
    {td : Bool} {x : α} {b : Buffer α} (ha : ∀ n, aF n = none) :
    ∃ b' evs, pushOp pol aF td x b = Except.ok (b', evs) := by
  have hg : ∃ b1 evs1, growIfNeeded pol aF td b = Except.ok (b1, evs1) := by
    by_cases hs : b._size = b._reserved
    · obtain ⟨b1, evs1, hr⟩ := @reserveOp_total α ε aF td (pol b._size) b (ha _)
      exact ⟨b1, _, by unfold growIfNeeded; rw [if_pos hs, hr]⟩
    · exact ⟨b, [], growIfNeeded_of_ne hs⟩
  obtain ⟨b1, evs1, hg⟩ := hg
  exact ⟨pushNoChecks x b1, evs1, by unfold pushOp; rw [hg]⟩

lemma runSeq_spec {α : Type} {pol : Nat → Nat} {td : Bool}
    (hpol : ∀ s, s < pol s) :
    ∀ (ops : List (Ins α)) (b : Buffer α), WF b →
      ∃ b', runSeq pol (fun _ => (none : Option Unit)) td ops b = Except.ok b' ∧
        b'._size = b._size + ops.length ∧
        elems b' = elems b ++ ops.map (fun op => some op.val) := by
  intro ops
  induction ops with
  | nil => exact fun b hWF => ⟨b, rfl, by simp, by simp⟩
  | cons op ops ih =>
    intro b hWF
    have hstep : ∃ b1 evs1,
        runIns pol (fun _ => (none : Option Unit)) td op b = Except.ok (b1, evs1) ∧
        WF b1 ∧ b1._size = b._size + 1 ∧ elems b1 = elems b ++ [some op.val] := by
      cases op with
      | pushIns x =>
        obtain ⟨b1, evs1, hp⟩ :=
          @pushOp_total α Unit pol (fun _ => (none : Option Unit)) td x b (fun _ => rfl)
        obtain ⟨hWF1, hs1, he1, _⟩ := pushOp_spec hWF (fun _ => hpol _) hp
        exact ⟨b1, evs1, hp, hWF1, hs1, he1⟩
      | emplaceIns x =>
        obtain ⟨b1, evs1, hp⟩ :=
          @pushOp_total α Unit pol (fun _ => (none : Option Unit)) td x b (fun _ => rfl)
        obtain ⟨hWF1, hs1, he1, _⟩ := pushOp_spec hWF (fun _ => hpol _) hp
        exact ⟨b1, evs1, by rw [runIns, emplaceOp_eq_pushOp]; exact hp, hWF1, hs1, he1⟩
    obtain ⟨b1, evs1, hr, hWF1, hs1, he1⟩ := hstep
    obtain ⟨b', hseq, hs, he⟩ := ih b1 hWF1
    refine ⟨b', ?_, ?_, ?_⟩
    · rw [runSeq, hr]; exact hseq
    · rw [hs, hs1, List.length_cons]; omega
    · rw [he, he1, List.map_cons]; simp

/-- C3: for every sequence of `push`/`emplace` operations of length N applied
to an initially empty buffer, under the growth-policy contract
`next_capacity(s) > s` (and a succeeding allocator), the sequence completes,
the final `size` equals N, and iterating the live range `[0, size)` yields
exactly the inserted values in insertion order. -/
theorem push_emplace_sequence {α : Type} (pol : Nat → Nat) (td : Bool)
    (hpol : ∀ s, s < pol s) (ops : List (Ins α)) :
    ∃ b', runSeq pol (fun _ => (none : Option Unit)) td ops
        (⟨none, 0, 0⟩ : Buffer α) = Except.ok b' ∧
      b'._size = ops.length ∧
      elems b' = ops.map (fun op => some op.val) := by
  obtain ⟨b', h1, h2, h3⟩ := runSeq_spec hpol ops (⟨none, 0, 0⟩ : Buffer α) WF_empty
  refine ⟨b', h1, ?_, ?_⟩
  · rw [h2]; simp
  · rw [h3, elems_empty, List.nil_append]

/-- C3 witness: pushing 3 then emplacing 5 onto an empty buffer under the
increment growth policy. -/
theorem push_emplace_sequence_w :
    ∃ b', runSeq (fun s => s + 1) (fun _ => (none : Option Unit)) false
        [Ins.pushIns 3, Ins.emplaceIns 5] (⟨none, 0, 0⟩ : Buffer Nat) = Except.ok b' ∧
      b'._size = 2 ∧
      elems b' = [some 3, some 5] :=
  push_emplace_sequence (fun s => s + 1) false (fun s => Nat.lt_succ_self s)
    [Ins.pushIns 3, Ins.emplaceIns 5]

/-- C6: a push performed while `size < capacity` invokes the growth policy
zero times and the allocator zero times (the event list is empty); the push
performed when `size == capacity == K` (given `next_capacity(K) > K` and a
succeeding allocator) invokes the growth policy exactly once, with argument
K — the event list is literally one `policyCall K` followed by the
relocation's allocator/destructor events — after which the capacity equals
the policy's return value; the relocation pass moves exactly the K old
elements and the new element is placed after it (`elems` grows by exactly
the pushed value). -/
theorem push_growth_policy {α ε : Type} (pol : Nat → Nat) (aF : Nat → Option ε)
    (td : Bool) (x : α) (b : Buffer α) (hWF : WF b) :
    (b._size < b._reserved →
      pushOp pol aF td x b = Except.ok (pushNoChecks x b, []) ∧
      elems (pushNoChecks x b) = elems b ++ [some x]) ∧
    (b._size = b._reserved → b._size < pol b._size → aF (pol b._size) = none →
      ∃ b', pushOp pol aF td x b = Except.ok
          (b', Ev.policyCall b._size :: Ev.allocCall (pol b._size) ::
            (destructEvs td b ++ [Ev.deallocCall b._data.isNone])) ∧
        b'._reserved = pol b._size ∧ b'._size = b._size + 1 ∧
        elems b' = elems b ++ [some x]) := by
  constructor
  · intro hlt
    constructor
    · unfold pushOp
      rw [growIfNeeded_of_ne (by omega)]
    · exact elems_pushNoChecks x hWF hlt
  · intro hs hp ha
    have hn : b._reserved < pol b._size := by omega
    have hgrow : growIfNeeded pol aF td b = Except.ok
        ((⟨some (copyLoop (storageOf b) (List.replicate (pol b._size) none) b._size),
          pol b._size, b._size⟩ : Buffer α),
         Ev.policyCall b._size :: Ev.allocCall (pol b._size) ::
           (destructEvs td b ++ [Ev.deallocCall b._data.isNone])) := by
      unfold growIfNeeded
      rw [if_pos hs, reserveOp_of_grow hn ha]
    refine ⟨pushNoChecks x
      (⟨some (copyLoop (storageOf b) (List.replicate (pol b._size) none) b._size),
        pol b._size, b._size⟩ : Buffer α), ?_, rfl, rfl, ?_⟩
    · unfold pushOp
      rw [hgrow]
    · rw [elems_pushNoChecks x (WF_grown hWF hn) (show b._size < pol b._size from hp),
        elems_grown hWF hn]

/-- C6 witness: a full one-element buffer; the push grows it via the policy
`s + 2` called once with argument 1. -/
theorem push_growth_policy_w :
    ∃ b', pushOp (fun s => s + 2) (fun _ => (none : Option Unit)) false 9
        (⟨some [some 4], 1, 1⟩ : Buffer Nat) = Except.ok
        (b', [Ev.policyCall 1, Ev.allocCall 3, Ev.destructCall, Ev.deallocCall false]) ∧
      b'._reserved = 3 ∧ b'._size = 2 ∧
      elems b' = [some 4, some 9] :=
  (push_growth_policy (fun s => s + 2) (fun _ => (none : Option Unit)) false 9
    (⟨some [some 4], 1, 1⟩ : Buffer Nat) ⟨Nat.le_refl 1, by simp, rfl⟩).2
    rfl (by decide) rfl

/-! Preservation of the structural invariants by every public operation. -/

lemma WF_mapped {α : Type} {b1 : Buffer α} (hWF1 : WF b1)
    (f : List (Option α) → List (Option α)) (hf : ∀ st, (f st).length = st.length)
    (n : Nat) (hn : n ≤ b1._reserved) :
    WF { b1 with _data := b1._data.map f, _size := n } := by
  refine ⟨hn, ?_, ?_⟩
  · show (b1._data.map f) = none ↔ b1._reserved = 0
    cases hd : b1._data with
    | none => exact ⟨fun _ => hWF1.2.1.1 hd, fun _ => rfl⟩
    | some st =>
      constructor
      · intro hc; exact Option.noConfusion hc
      · intro hc
        have hc2 := hWF1.2.1.2 hc
        rw [hd] at hc2
        exact Option.noConfusion hc2
  · show ((b1._data.map f).getD []).length = b1._reserved
    cases hd : b1._data with
    | none =>
      exact (hWF1.2.1.1 hd).symm
    | some st =>
      show (f st).length = b1._reserved
      rw [hf st]
      have hl := hWF1.2.2
      rw [storageOf, hd] at hl
      exact hl

lemma resizeOp_ok_inv {α ε : Type} {aF : Nat → Option ε} {td : Bool} {dflt : α}
    {n : Nat} {b b' : Buffer α} {evs : List Ev}
    (h : resizeOp aF td dflt n b = Except.ok (b', evs)) :
    ∃ b1, reserveOp aF td n b = Except.ok (b1, evs) ∧
      b' = { b1 with
        _data := b1._data.map fun st => fillLoop dflt st b1._size (n - b1._size),
        _size := n } := by
  unfold resizeOp at h
  cases hr : reserveOp aF td n b with
  | error e => rw [hr] at h; cases h
  | ok p =>
    obtain ⟨b1, evs1⟩ := p
    rw [hr] at h
    simp only [Except.ok.injEq, Prod.mk.injEq] at h
    exact ⟨b1, by rw [← h.2], h.1.symm⟩

lemma resizeOp_WF {α ε : Type} {aF : Nat → Option ε} {td : Bool} {dflt : α}
    {n : Nat} {b b' : Buffer α} {evs : List Ev} (hWF : WF b)
    (h : resizeOp aF td dflt n b = Except.ok (b', evs)) : WF b' := by
  obtain ⟨b1, hr, rfl⟩ := resizeOp_ok_inv h
  obtain ⟨hWF1, hn, _, _, _⟩ := reserveOp_ok_WF hWF hr
  exact WF_mapped hWF1 _ (fun st => fillLoop_length _ _ _ _) n hn

lemma rangeCtorOp_ok_inv {α ε : Type} {aF : Nat → Option ε} {td : Bool}
    {src : List α} {b' : Buffer α} {evs : List Ev}
    (h : rangeCtorOp aF td src = Except.ok (b', evs)) :
    ∃ b1, reserveOp aF td src.length (⟨none, 0, 0⟩ : Buffer α) = Except.ok (b1, evs) ∧
      b' = { b1 with
        _data := b1._data.map fun st => memcpyElems src st src.length,
        _size := src.length } := by
  unfold rangeCtorOp at h
  cases hr : reserveOp aF td src.length (⟨none, 0, 0⟩ : Buffer α) with
  | error e => rw [hr] at h; cases h
  | ok p =>
    obtain ⟨b1, evs1⟩ := p
    rw [hr] at h
    simp only [Except.ok.injEq, Prod.mk.injEq] at h
    exact ⟨b1, by rw [← h.2], h.1.symm⟩

lemma rangeCtorOp_WF {α ε : Type} {aF : Nat → Option ε} {td : Bool}
    {src : List α} {b' : Buffer α} {evs : List Ev}
    (h : rangeCtorOp aF td src = Except.ok (b', evs)) : WF b' := by
  obtain ⟨b1, hr, rfl⟩ := rangeCtorOp_ok_inv h
  obtain ⟨hWF1, hn, _, _, _⟩ := reserveOp_ok_WF WF_empty hr
  exact WF_mapped hWF1 _ (fun st => memcpyElems_length _ _ _) _ hn

lemma initListCtorOp_ok_inv {α ε : Type} {aF : Nat → Option ε} {td : Bool}
    {values : List α} {b' : Buffer α} {evs : List Ev}
    (h : initListCtorOp aF td values = Except.ok (b', evs)) :
    ∃ b1, reserveOp aF td values.length (⟨none, 0, 0⟩ : Buffer α) = Except.ok (b1, evs) ∧
      b' = values.foldl (fun bb v => pushNoChecks v bb) b1 := by
  unfold initListCtorOp at h
  cases hr : reserveOp aF td values.length (⟨none, 0, 0⟩ : Buffer α) with
  | error e => rw [hr] at h; cases h
  | ok p =>
    obtain ⟨b1, evs1⟩ := p
    rw [hr] at h
    simp only [Except.ok.injEq, Prod.mk.injEq] at h
    exact ⟨b1, by rw [← h.2], h.1.symm⟩

lemma foldl_pushNoChecks_WF {α : Type} :
    ∀ (l : List α) (b : Buffer α), WF b → b._size + l.length ≤ b._reserved →
      WF (l.foldl (fun bb v => pushNoChecks v bb) b)
  | [], _, hWF, _ => hWF
  | v :: l, b, hWF, hle => by
    have hlt : b._size < b._reserved := by
      simp only [List.length_cons] at hle; omega
    have h1 := WF_pushNoChecks v hWF hlt
    have h2 : (pushNoChecks v b)._size + l.length ≤ (pushNoChecks v b)._reserved := by
      rw [pushNoChecks_size, pushNoChecks_reserved]
      simp only [List.length_cons] at hle; omega
    exact foldl_pushNoChecks_WF l (pushNoChecks v b) h1 h2

lemma initListCtorOp_WF {α ε : Type} {aF : Nat → Option ε} {td : Bool}
    {values : List α} {b' : Buffer α} {evs : List Ev}
    (h : initListCtorOp aF td values = Except.ok (b', evs)) : WF b' := by
  obtain ⟨b1, hr, rfl⟩ := initListCtorOp_ok_inv h
  obtain ⟨hWF1, hn, hsz, _, _⟩ := reserveOp_ok_WF WF_empty hr
  refine foldl_pushNoChecks_WF values b1 hWF1 ?_
  rw [hsz]
  simpa using hn

lemma clearOp_WF {α : Type} (td : Bool) {b : Buffer α} (hWF : WF b) :
    WF (clearOp td b).1 :=
  ⟨Nat.zero_le _, hWF.2.1, hWF.2.2⟩

lemma reachable_WF {α : Type} {b : Buffer α} (h : Reachable b) : WF b := by
  induction h with
  | ctor_default => exact WF_empty
  | ctor_sized aF td dflt n b' evs h => exact resizeOp_WF WF_empty h
  | ctor_range aF td src b' evs h => exact rangeCtorOp_WF h
  | ctor_init_list aF td values b' evs h => exact initListCtorOp_WF h
  | step_push b pol aF td x b' evs hb hpol h ih =>
    exact (pushOp_spec ih (fun _ => hpol _) h).1
  | step_emplace b pol aF td x b' evs hb hpol h ih =>
    rw [emplaceOp_eq_pushOp] at h
    exact (pushOp_spec ih (fun _ => hpol _) h).1
  | step_reserve b aF td n b' evs hb h ih => exact (reserveOp_ok_WF ih h).1
  | step_resize b aF td dflt n b' evs hb h ih => exact resizeOp_WF ih h
  | step_clear b td hb ih => exact clearOp_WF td ih
  | step_move_ctor_dst b hb ih => exact ih
  | step_move_ctor_src b hb ih => exact WF_empty
  | step_move_assign_dst tgt b htgt hb ih1 ih2 => exact ih2
  | step_move_assign_src tgt b htgt hb ih1 ih2 => exact WF_empty

/-- C9: every buffer state reachable through the public operations
(construction of any form, push, emplace, reserve, resize, clear, move
construction, move assignment — with insertions under the growth-policy
contract `next_capacity(s) > s`) satisfies `capacity ≥ size`, and its
storage pointer is null if and only if `capacity == 0`. -/
theorem reachable_invariants {α : Type} (b : Buffer α) (h : Reachable b) :
    b._size ≤ b._reserved ∧ (b._data = none ↔ b._reserved = 0) :=
  ⟨(reachable_WF h).1, (reachable_WF h).2.1⟩

/-- C9 witness: the default-constructed buffer is reachable and satisfies
both invariants. -/
theorem reachable_invariants_w :
    (⟨none, 0, 0⟩ : Buffer Nat)._size ≤ (⟨none, 0, 0⟩ : Buffer Nat)._reserved ∧
      ((⟨none, 0, 0⟩ : Buffer Nat)._data = none ↔
        (⟨none, 0, 0⟩ : Buffer Nat)._reserved = 0) :=
  reachable_invariants (⟨none, 0, 0⟩ : Buffer Nat) Reachable.ctor_default

end redox
